import Mathlib

/-
  Verification of the paperfetcher search execution and result-aggregation
  engine, following the repository's design specification.  The engine
  (handsearch, snowball search, result collections, dataset transformers)
  is embedded shallowly: services are modelled as pure environments
  (functions from identifiers/offsets to records), and the orchestrators,
  fetch engine and collection operations are executable Lean functions.
-/

namespace Paperfetcher

/-- Modelled from the spec: the canonical Identifier form of a DOI-like
token — lower-cased and whitespace-trimmed (§3 Data Model, "Identifier").
The missing source module is `paperfetcher.datastructures`. -/
def canonicalize (s : String) : String :=
  String.mk ((((s.data.map Char.toLower).dropWhile Char.isWhitespace).reverse.dropWhile
    Char.isWhitespace).reverse)

/-- Modelled from the spec: a raw metadata field value as returned by a
Service Adapter — a bare string, a list of strings (e.g. nested title
markup fragments), or a structured object (§3 "Raw Metadata Record"). -/
inductive RawValue where
  | str  : String → RawValue
  | strs : List String → RawValue
  | obj  : List (String × String) → RawValue
deriving DecidableEq

/-- Modelled from the spec: a Raw Metadata Record — an opaque field map
together with its (possibly absent) work identifier (§3). The missing
source module is `paperfetcher.datastructures`. -/
structure RawRecord where
  ident : Option String
  fields : List (String × RawValue)
deriving DecidableEq

/-- Field lookup in a raw record; the first binding of the name wins. -/
def RawRecord.getField (r : RawRecord) (name : String) : Option RawValue :=
  (r.fields.find? (fun p => p.1 = name)).map Prod.snd

/-- The canonical dedup key of a record: its canonicalized Identifier,
absent when the record has no Identifier. -/
def RawRecord.key (r : RawRecord) : Option String :=
  r.ident.map canonicalize

/-- Modelled from the spec: a Result Collection — an ordered, insertion-order
store of raw records, deduplicated by canonical Identifier (§3, §4.4).
The missing source module is `paperfetcher.datastructures`. -/
structure ResultCollection where
  records : List RawRecord
deriving DecidableEq

/-- The canonical Identifiers present in a collection, in insertion order. -/
def ResultCollection.keys (c : ResultCollection) : List String :=
  c.records.filterMap RawRecord.key

def ResultCollection.size (c : ResultCollection) : Nat :=
  c.records.length

def ResultCollection.empty : ResultCollection := ⟨[]⟩

/-- Modelled from the spec: `append(record)` — a no-op if the record's
canonical Identifier is already present; records lacking an Identifier are
always appended (§4.4 Result Collection). -/
def ResultCollection.append (c : ResultCollection) (r : RawRecord) : ResultCollection :=
  match r.ident with
  | none => ⟨c.records ++ [r]⟩
  | some d => if canonicalize d ∈ c.keys then c else ⟨c.records ++ [r]⟩

def ResultCollection.appendAll (c : ResultCollection) (rs : List RawRecord) : ResultCollection :=
  rs.foldl ResultCollection.append c

/-- The collection obtained by appending a sequence of records to the
empty collection — the state of a Result Collection after a run. -/
def ResultCollection.fromRecords (rs : List RawRecord) : ResultCollection :=
  ResultCollection.empty.appendAll rs

/-- The canonical keys of the identifier-bearing records of a list. -/
def keyList (rs : List RawRecord) : List String :=
  rs.filterMap RawRecord.key

/-- The number of identifier-less records in a list. -/
def missingCount (rs : List RawRecord) : Nat :=
  (rs.filter (fun r => r.ident.isNone)).length

/-- Modelled from the spec: the Identifier Dataset transformer — projects
each record of a Result Collection to its Identifier (§4.5); mirrors the
missing `get_DOIDataset` of `paperfetcher.handsearch`/`snowballsearch`. -/
def get_DOIDataset (c : ResultCollection) : List String :=
  c.records.filterMap RawRecord.ident

/-- Modelled from the spec: the pagination view of one Service Adapter for
one Query Specification — the service-reported total count and, for each
record offset, the page of raw records starting there (§4.1, §6). The
missing source modules are `paperfetcher.apiclient`/`handsearch`. -/
structure PagedService where
  totalCount : Nat
  page : Nat → List RawRecord

/-- Modelled from the spec: the Paginated Fetch Engine loop (§4.2) — issue
the page at the current offset, accumulate its records in order, and stop
when the accumulated record count reaches `totalCount` or the service
yields no further records (no next page token).  Returns the accumulated
ordered record sequence together with the number of page requests issued.
The loop is driven by a record budget (`fuel`): each productive page
advances the offset by at least one record, so a budget of the remaining
record count is enough for the whole fetch. -/
def fetchLoop (svc : PagedService) (fuel : Nat) (offset : Nat) : List RawRecord × Nat :=
  match fuel with
  | 0 => ([], 0)
  | Nat.succ fuel =>
    if offset < svc.totalCount then
      if (svc.page offset).length = 0 then
        ([], 1)
      else
        ((svc.page offset) ++ (fetchLoop svc fuel (offset + (svc.page offset).length)).1,
         (fetchLoop svc fuel (offset + (svc.page offset).length)).2 + 1)
    else ([], 0)

/-- The Paginated Fetch Engine applied from a record offset: the ordered
accumulated records and the number of page requests issued. -/
def fetchPages (svc : PagedService) (offset : Nat) : List RawRecord × Nat :=
  fetchLoop svc (svc.totalCount - offset) offset

/-- Modelled from the spec: a reference object extracted from a seed work's
metadata — it may lack a DOI Identifier (§4.1, §4.3 Backward Snowball). -/
structure RefObj where
  doi : Option String
  unstructured : String
deriving DecidableEq

/-- Modelled from the spec: the structured skipped-reference warning raised
when a reference object lacks an Identifier (§4.1 edge cases, §7
`MalformedRecordWarning`). -/
structure SkippedRefWarning where
  seed : String
  refObj : RefObj
deriving DecidableEq

/-- Modelled from the spec: the outcome of an Orchestrator run — the frozen
Result Collection paired with the accumulated audit list of warnings,
both exposed to the caller (§4.3, §7). -/
structure SearchRun where
  collection : ResultCollection
  warnings : List SkippedRefWarning
deriving DecidableEq

/-- Modelled from the spec: a handsearch Query Specification — journal
(collection) identifier, inclusive date range, free-text keywords (§3, §6);
mirrors the missing `CrossrefSearch` constructor arguments. -/
structure HandsearchQuery where
  issn : String
  fromDate : String
  untilDate : String
  keywords : List String
deriving DecidableEq

/-- Modelled from the spec: the Handsearch Orchestrator (§4.3) — one Fetch
Engine invocation; each fetched raw record becomes one Result Collection
entry in arrival order, defended against duplicates by Identifier.
Mirrors the missing `paperfetcher.handsearch.CrossrefSearch.__call__`. -/
def handsearch (svc : PagedService) : SearchRun :=
  ⟨ResultCollection.fromRecords (fetchPages svc 0).1, []⟩

/-- Modelled from the spec: a citation Service Adapter (§4.1) — backward
reference extraction, per-Identifier record resolution, and (where the
service supports it) forward citing-identifier extraction; `citing = none`
models an adapter lacking forward support. -/
structure CitationService where
  references : String → List RefObj
  resolve : String → RawRecord
  citing : Option (String → List String)

/-- Modelled from the spec: the Crossref Service Adapter supports backward
reference extraction but not forward citing-identifier extraction (§4.1,
notebook: "We cannot use the Crossref service for this task"). -/
def crossrefAdapter (references : String → List RefObj) (resolve : String → RawRecord) :
    CitationService :=
  ⟨references, resolve, none⟩

/-- Modelled from the spec: processing of one reference object during
backward snowball (§4.3) — a reference lacking an Identifier is recorded as
a skipped-reference warning and excluded; otherwise its Identifier is
resolved to a full record and appended (dedup by canonical Identifier). -/
def processReference (svc : CitationService) (seed : String) (run : SearchRun)
    (ref : RefObj) : SearchRun :=
  match ref.doi with
  | none => ⟨run.collection, run.warnings ++ [⟨seed, ref⟩]⟩
  | some d => ⟨run.collection.append (svc.resolve d), run.warnings⟩

/-- Processing of one seed during backward snowball: extract its reference
objects and process each in order. -/
def processSeed (svc : CitationService) (run : SearchRun) (seed : String) : SearchRun :=
  (svc.references seed).foldl (processReference svc seed) run

/-- Modelled from the spec: the Backward-Snowball Orchestrator (§4.3) —
for each seed Identifier, extract its reference Identifiers, resolve each
to a full record, and merge everything into one Result Collection,
deduplicating by canonical Identifier (first occurrence wins). Mirrors the
missing `paperfetcher.snowballsearch.CrossrefBackwardReferenceSearch`. -/
def backwardSnowball (svc : CitationService) (seeds : List String) : SearchRun :=
  seeds.foldl (processSeed svc) ⟨ResultCollection.empty, []⟩

/-- The reference Identifiers traversed by a backward snowball run, in
traversal order. -/
def backwardDOIs (svc : CitationService) (seeds : List String) : List String :=
  seeds.flatMap (fun s => (svc.references s).filterMap RefObj.doi)

/-- The resolved records a backward snowball run appends, in order. -/
def backwardAppended (svc : CitationService) (seeds : List String) : List RawRecord :=
  (backwardDOIs svc seeds).map svc.resolve

/-- The skipped-reference warnings a backward snowball run accumulates:
one per identifier-less reference object, in traversal order. -/
def skippedRefs (svc : CitationService) (seeds : List String) : List SkippedRefWarning :=
  seeds.flatMap (fun s =>
    ((svc.references s).filter (fun r => r.doi.isNone)).map (fun r => ⟨s, r⟩))

/-- Modelled from the spec: the error taxonomy entry for a requested
operation unsupported by the chosen service (§7 `CapabilityError`). -/
inductive SnowballError where
  | capabilityError (op : String)
deriving DecidableEq

/-- A successfully constructed Forward-Snowball Orchestrator: the forward
extraction function obtained from the adapter, the resolver, and the seeds. -/
structure ForwardSearch where
  citingFn : String → List String
  resolve : String → RawRecord
  seeds : List String

/-- Modelled from the spec: Forward-Snowball Orchestrator construction
(§4.3) — fails with `CapabilityError` at construction time, before any
network call, if the configured service adapter does not support forward
citing-identifier extraction. -/
def mkForwardSearch (svc : CitationService) (seeds : List String) :
    Except SnowballError ForwardSearch :=
  match svc.citing with
  | none => .error (.capabilityError "extract_citing_identifiers")
  | some f => .ok ⟨f, svc.resolve, seeds⟩

/-- Modelled from the spec: the Forward-Snowball traversal (§4.3) —
symmetric to backward snowball, using the citing-identifier extraction:
for each seed, resolve each citing Identifier and merge into one
deduplicated Result Collection. -/
def ForwardSearch.run (fs : ForwardSearch) : SearchRun :=
  fs.seeds.foldl (fun run seed =>
    (fs.citingFn seed).foldl
      (fun run d => ⟨run.collection.append (fs.resolve d), run.warnings⟩) run)
    ⟨ResultCollection.empty, []⟩

/-- The resolved records a forward snowball run appends, in order. -/
def forwardAppended (fs : ForwardSearch) : List RawRecord :=
  (fs.seeds.flatMap fs.citingFn).map fs.resolve

theorem append_records_none (c : ResultCollection) (r : RawRecord) (h : r.ident = none) :
    (c.append r).records = c.records ++ [r] := by
  simp [ResultCollection.append, h]

theorem append_of_mem (c : ResultCollection) (r : RawRecord) (d : String)
    (h : r.ident = some d) (hm : canonicalize d ∈ c.keys) : c.append r = c := by
  simp [ResultCollection.append, h, hm]

theorem append_records_new (c : ResultCollection) (r : RawRecord) (d : String)
    (h : r.ident = some d) (hm : canonicalize d ∉ c.keys) :
    (c.append r).records = c.records ++ [r] := by
  simp [ResultCollection.append, h, hm]

theorem keys_append_none (c : ResultCollection) (r : RawRecord) (h : r.ident = none) :
    (c.append r).keys = c.keys := by
  have hrec := append_records_none c r h
  show ((c.append r).records).filterMap RawRecord.key = _
  rw [hrec]
  simp [List.filterMap_append, RawRecord.key, h, ResultCollection.keys]

theorem keys_append_new (c : ResultCollection) (r : RawRecord) (d : String)
    (h : r.ident = some d) (hm : canonicalize d ∉ c.keys) :
    (c.append r).keys = c.keys ++ [canonicalize d] := by
  have hrec := append_records_new c r d h hm
  show ((c.append r).records).filterMap RawRecord.key = _
  rw [hrec]
  simp [List.filterMap_append, RawRecord.key, h, ResultCollection.keys]

theorem appendAll_nil (c : ResultCollection) : c.appendAll [] = c := rfl

theorem appendAll_cons (c : ResultCollection) (r : RawRecord) (rs : List RawRecord) :
    c.appendAll (r :: rs) = (c.append r).appendAll rs := rfl

theorem appendAll_keys_nodup (rs : List RawRecord) :
    ∀ (c : ResultCollection), c.keys.Nodup → (c.appendAll rs).keys.Nodup := by
  induction rs with
  | nil => intro c h; exact h
  | cons r rs ih =>
    intro c h
    rw [appendAll_cons]
    apply ih
    cases hr : r.ident with
    | none => rw [keys_append_none c r hr]; exact h
    | some d =>
      by_cases hm : canonicalize d ∈ c.keys
      · rw [append_of_mem c r d hr hm]; exact h
      · rw [keys_append_new c r d hr hm]
        refine List.Nodup.append h (List.nodup_singleton _) ?_
        intro a ha hb
        rw [List.mem_singleton] at hb
        subst hb
        exact hm ha

theorem keyList_cons_none (r : RawRecord) (rs : List RawRecord) (h : r.ident = none) :
    keyList (r :: rs) = keyList rs := by
  simp [keyList, List.filterMap_cons, RawRecord.key, h]

theorem keyList_cons_some (r : RawRecord) (rs : List RawRecord) (d : String)
    (h : r.ident = some d) : keyList (r :: rs) = canonicalize d :: keyList rs := by
  simp [keyList, List.filterMap_cons, RawRecord.key, h]

theorem appendAll_keys_toFinset (rs : List RawRecord) :
    ∀ (c : ResultCollection),
      (c.appendAll rs).keys.toFinset = c.keys.toFinset ∪ (keyList rs).toFinset := by
  induction rs with
  | nil => intro c; simp [appendAll_nil, keyList]
  | cons r rs ih =>
    intro c
    rw [appendAll_cons, ih]
    cases hr : r.ident with
    | none => rw [keys_append_none c r hr, keyList_cons_none r rs hr]
    | some d =>
      rw [keyList_cons_some r rs d hr]
      by_cases hm : canonicalize d ∈ c.keys
      · rw [append_of_mem c r d hr hm]
        ext x
        simp only [Finset.mem_union, List.mem_toFinset, List.mem_cons]
        constructor
        · tauto
        · rintro (hx | rfl | hx)
          · tauto
          · exact Or.inl hm
          · tauto
      · rw [keys_append_new c r d hr hm]
        ext x
        simp only [Finset.mem_union, List.mem_toFinset, List.mem_append,
          List.mem_cons, List.mem_singleton]
        tauto

theorem length_eq_keys_add_missing (l : List RawRecord) :
    l.length = (l.filterMap RawRecord.key).length
      + (l.filter (fun r => r.ident.isNone)).length := by
  induction l with
  | nil => rfl
  | cons r rs ih =>
    cases hr : r.ident with
    | none =>
      simp only [List.length_cons, List.filterMap_cons, RawRecord.key, hr,
        Option.map_none', List.filter_cons, Option.isNone_none, if_pos,
        List.length_cons]
      omega
    | some d =>
      simp only [List.length_cons, List.filterMap_cons, RawRecord.key, hr,
        Option.map_some', List.filter_cons, Option.isNone_some, List.length_cons]
      simp only [Bool.false_eq_true, if_false]
      omega

theorem missingCount_cons (r : RawRecord) (rs : List RawRecord) :
    missingCount (r :: rs)
      = (if r.ident.isNone then 1 else 0) + missingCount rs := by
  simp only [missingCount, List.filter_cons]
  by_cases h : r.ident.isNone
  · simp [h]; omega
  · simp [h]

theorem appendAll_missing (rs : List RawRecord) :
    ∀ (c : ResultCollection),
      ((c.appendAll rs).records.filter (fun r => r.ident.isNone)).length
        = (c.records.filter (fun r => r.ident.isNone)).length + missingCount rs := by
  induction rs with
  | nil => intro c; simp [appendAll_nil, missingCount]
  | cons r rs ih =>
    intro c
    rw [appendAll_cons, ih, missingCount_cons]
    cases hr : r.ident with
    | none =>
      rw [append_records_none c r hr]
      simp [List.filter_append, hr]
      omega
    | some d =>
      have hfilter : ∀ l : List RawRecord, l = c.records ++ [r] →
          (l.filter (fun x => x.ident.isNone)).length
            = (c.records.filter (fun x => x.ident.isNone)).length := by
        intro l hl
        subst hl
        simp [List.filter_append, hr]
      by_cases hm : canonicalize d ∈ c.keys
      · rw [append_of_mem c r d hr hm]
        simp [hr]
      · rw [hfilter _ (append_records_new c r d hr hm)]
        simp [hr]

theorem append_records_subset (c : ResultCollection) (r : RawRecord) :
    (c.append r).records ⊆ c.records ++ [r] := by
  cases hr : r.ident with
  | none => rw [append_records_none c r hr]; exact List.Subset.refl _
  | some d =>
    by_cases hm : canonicalize d ∈ c.keys
    · rw [append_of_mem c r d hr hm]
      exact List.subset_append_left _ _
    · rw [append_records_new c r d hr hm]
      exact List.Subset.refl _

theorem append_records_grow (c : ResultCollection) (r : RawRecord) :
    c.records ⊆ (c.append r).records := by
  cases hr : r.ident with
  | none => rw [append_records_none c r hr]; exact List.subset_append_left _ _
  | some d =>
    by_cases hm : canonicalize d ∈ c.keys
    · rw [append_of_mem c r d hr hm]; exact List.Subset.refl _
    · rw [append_records_new c r d hr hm]; exact List.subset_append_left _ _

theorem records_subset_appendAll (rs : List RawRecord) :
    ∀ (c : ResultCollection), c.records ⊆ (c.appendAll rs).records := by
  induction rs with
  | nil => intro c; rw [appendAll_nil]; exact List.Subset.refl _
  | cons r rs ih =>
    intro c
    rw [appendAll_cons]
    exact fun x hx => ih (c.append r) (append_records_grow c r hx)

theorem mem_appendAll_cases (rs : List RawRecord) :
    ∀ (c : ResultCollection) (r : RawRecord),
      r ∈ (c.appendAll rs).records → r ∈ c.records ∨ r ∈ rs := by
  induction rs with
  | nil => intro c r h; rw [appendAll_nil] at h; exact Or.inl h
  | cons r0 rs ih =>
    intro c r h
    rw [appendAll_cons] at h
    rcases ih (c.append r0) r h with h1 | h1
    · have := append_records_subset c r0 h1
      rw [List.mem_append, List.mem_singleton] at this
      rcases this with h2 | h2
      · exact Or.inl h2
      · exact Or.inr (h2 ▸ List.mem_cons_self r0 rs)
    · exact Or.inr (List.mem_cons_of_mem r0 h1)

theorem mem_keys_iff (c : ResultCollection) (k : String) :
    k ∈ c.keys ↔ ∃ r ∈ c.records, r.key = some k := by
  simp [ResultCollection.keys, List.mem_filterMap]

theorem mem_appendAll_of_mem (rs : List RawRecord) :
    ∀ (c : ResultCollection),
      (∀ a ∈ c.records ++ rs, ∀ b ∈ c.records ++ rs, ∀ k,
        a.key = some k → b.key = some k → a = b) →
      ∀ r ∈ rs, r ∈ (c.appendAll rs).records := by
  induction rs with
  | nil => intro c _ r hr; cases hr
  | cons r0 rs ih =>
    intro c hcoh r hr
    rw [appendAll_cons]
    have hsub : ∀ x, x ∈ (c.append r0).records ++ rs → x ∈ c.records ++ r0 :: rs := by
      intro x hx
      rw [List.mem_append] at hx
      rcases hx with hx | hx
      · have := append_records_subset c r0 hx
        rw [List.mem_append, List.mem_singleton] at this
        rcases this with h2 | h2
        · exact List.mem_append_left _ h2
        · exact List.mem_append_right _ (h2 ▸ List.mem_cons_self r0 rs)
      · exact List.mem_append_right _ (List.mem_cons_of_mem r0 hx)
    rcases List.mem_cons.mp hr with rfl | hr
    · have hmem : r ∈ (c.append r).records := by
        cases hr0 : r.ident with
        | none =>
          rw [append_records_none c r hr0]
          simp
        | some d =>
          by_cases hm : canonicalize d ∈ c.keys
          · rw [append_of_mem c r d hr0 hm]
            obtain ⟨r2, hr2, hk2⟩ := (mem_keys_iff c (canonicalize d)).mp hm
            have heq : r2 = r := by
              refine hcoh r2 (List.mem_append_left _ hr2) r
                (List.mem_append_right _ (List.mem_cons_self r rs)) (canonicalize d) hk2 ?_
              simp [RawRecord.key, hr0]
            exact heq ▸ hr2
          · rw [append_records_new c r d hr0 hm]
            simp
      exact records_subset_appendAll rs (c.append r) hmem
    · refine ih (c.append r0) ?_ r hr
      intro a ha b hb k hak hbk
      exact hcoh a (hsub a ha) b (hsub b hb) k hak hbk

theorem nodup_of_keys_nodup (l : List RawRecord) (hsome : ∀ r ∈ l, r.ident.isSome)
    (hnd : (l.filterMap RawRecord.key).Nodup) : l.Nodup := by
  induction l with
  | nil => exact List.nodup_nil
  | cons r rs ih =>
    obtain ⟨d, hd⟩ := Option.isSome_iff_exists.mp (hsome r (List.mem_cons_self r rs))
    have hcons : (r :: rs).filterMap RawRecord.key
        = canonicalize d :: rs.filterMap RawRecord.key := by
      simp [List.filterMap_cons, RawRecord.key, hd]
    rw [hcons, List.nodup_cons] at hnd
    refine List.nodup_cons.mpr ⟨?_, ih (fun x hx => hsome x (List.mem_cons_of_mem r hx)) hnd.2⟩
    intro hmem
    exact hnd.1 (List.mem_filterMap.mpr ⟨r, hmem, by simp [RawRecord.key, hd]⟩)

theorem processRefs_eq (svc : CitationService) (seed : String) (refs : List RefObj) :
    ∀ (run : SearchRun),
      refs.foldl (processReference svc seed) run =
        ⟨run.collection.appendAll ((refs.filterMap RefObj.doi).map svc.resolve),
         run.warnings ++ (refs.filter (fun r => r.doi.isNone)).map
           (fun r => ⟨seed, r⟩)⟩ := by
  induction refs with
  | nil =>
    intro run
    simp [appendAll_nil]
  | cons ref refs ih =>
    intro run
    rw [List.foldl_cons, ih]
    cases hd : ref.doi with
    | none =>
      simp only [processReference, hd, List.filterMap_cons, List.filter_cons,
        Option.isNone_none, if_pos, List.map_cons]
      simp
    | some d =>
      simp [processReference, hd, List.filterMap_cons, List.filter_cons,
        appendAll_cons]

theorem backwardSnowball_run_eq (svc : CitationService) (seeds : List String) :
    ∀ (run : SearchRun),
      seeds.foldl (processSeed svc) run =
        ⟨run.collection.appendAll (backwardAppended svc seeds),
         run.warnings ++ skippedRefs svc seeds⟩ := by
  induction seeds with
  | nil =>
    intro run
    simp [backwardAppended, backwardDOIs, skippedRefs, appendAll_nil]
  | cons s seeds ih =>
    intro run
    rw [List.foldl_cons]
    show seeds.foldl (processSeed svc) (processSeed svc run s) = _
    rw [ih]
    have hps : processSeed svc run s =
        ⟨run.collection.appendAll (((svc.references s).filterMap RefObj.doi).map svc.resolve),
         run.warnings ++ ((svc.references s).filter (fun r => r.doi.isNone)).map
           (fun r => ⟨s, r⟩)⟩ :=
      processRefs_eq svc s (svc.references s) run
    rw [hps]
    have happ : backwardAppended svc (s :: seeds)
        = ((svc.references s).filterMap RefObj.doi).map svc.resolve
          ++ backwardAppended svc seeds := by
      simp [backwardAppended, backwardDOIs, List.flatMap_cons, List.map_append]
    have hsk : skippedRefs svc (s :: seeds)
        = ((svc.references s).filter (fun r => r.doi.isNone)).map (fun r => ⟨s, r⟩)
          ++ skippedRefs svc seeds := by
      simp [skippedRefs, List.flatMap_cons]
    rw [happ, hsk]
    have hfold : ∀ (c : ResultCollection) (l1 l2 : List RawRecord),
        (c.appendAll l1).appendAll l2 = c.appendAll (l1 ++ l2) := by
      intro c l1 l2
      simp [ResultCollection.appendAll, List.foldl_append]
    rw [hfold, List.append_assoc]

theorem backwardSnowball_eq (svc : CitationService) (seeds : List String) :
    backwardSnowball svc seeds =
      ⟨ResultCollection.fromRecords (backwardAppended svc seeds),
       skippedRefs svc seeds⟩ := by
  unfold backwardSnowball
  rw [backwardSnowball_run_eq svc seeds]
  rfl

theorem forward_run_eq (fs : ForwardSearch) :
    fs.run = ⟨ResultCollection.fromRecords (forwardAppended fs), []⟩ := by
  have hinner : ∀ (ds : List String) (run : SearchRun),
      ds.foldl (fun run d => ⟨run.collection.append (fs.resolve d), run.warnings⟩) run
        = ⟨run.collection.appendAll (ds.map fs.resolve), run.warnings⟩ := by
    intro ds
    induction ds with
    | nil => intro run; simp [appendAll_nil]
    | cons d ds ih =>
      intro run
      rw [List.foldl_cons, ih]
      simp [appendAll_cons]
  have houter : ∀ (seeds : List String) (run : SearchRun),
      seeds.foldl (fun run seed =>
          (fs.citingFn seed).foldl
            (fun run d => ⟨run.collection.append (fs.resolve d), run.warnings⟩) run) run
        = ⟨run.collection.appendAll ((seeds.flatMap fs.citingFn).map fs.resolve),
           run.warnings⟩ := by
    intro seeds
    induction seeds with
    | nil => intro run; simp [appendAll_nil]
    | cons s seeds ih =>
      intro run
      rw [List.foldl_cons, hinner, ih]
      have : ((s :: seeds).flatMap fs.citingFn).map fs.resolve
          = (fs.citingFn s).map fs.resolve ++ (seeds.flatMap fs.citingFn).map fs.resolve := by
        simp [List.flatMap_cons, List.map_append]
      rw [this]
      have hfold : ∀ (c : ResultCollection) (l1 l2 : List RawRecord),
          (c.appendAll l1).appendAll l2 = c.appendAll (l1 ++ l2) := by
        intro c l1 l2
        simp [ResultCollection.appendAll, List.foldl_append]
      rw [hfold]
  show fs.seeds.foldl _ _ = _
  rw [houter fs.seeds ⟨ResultCollection.empty, []⟩]
  rfl

theorem empty_keys_nodup : ResultCollection.empty.keys.Nodup := List.nodup_nil

theorem fromRecords_keys_nodup (rs : List RawRecord) :
    (ResultCollection.fromRecords rs).keys.Nodup :=
  appendAll_keys_nodup rs ResultCollection.empty empty_keys_nodup

theorem fromRecords_size (rs : List RawRecord) :
    (ResultCollection.fromRecords rs).size
      = (keyList rs).toFinset.card + missingCount rs := by
  have hnd := fromRecords_keys_nodup rs
  have hsplit := length_eq_keys_add_missing (ResultCollection.fromRecords rs).records
  have hfin : (ResultCollection.fromRecords rs).keys.toFinset = (keyList rs).toFinset := by
    rw [ResultCollection.fromRecords, appendAll_keys_toFinset]
    show ([] : List String).toFinset ∪ _ = _
    simp
  have hcard : (ResultCollection.fromRecords rs).keys.length = (keyList rs).toFinset.card := by
    rw [← List.toFinset_card_of_nodup hnd, hfin]
  have hmiss : ((ResultCollection.fromRecords rs).records.filter
      (fun r => r.ident.isNone)).length = missingCount rs := by
    have := appendAll_missing rs ResultCollection.empty
    simpa [ResultCollection.empty] using this
  show (ResultCollection.fromRecords rs).records.length = _
  rw [hsplit, hmiss]
  show (ResultCollection.fromRecords rs).keys.length + _ = _
  rw [hcard]

theorem fromRecords_size_of_nodup (rs : List RawRecord) (h : (keyList rs).Nodup) :
    (ResultCollection.fromRecords rs).size = rs.length := by
  rw [fromRecords_size, List.toFinset_card_of_nodup h]
  exact (length_eq_keys_add_missing rs).symm

theorem fetchLoop_spec (B : Nat) (hB : 0 < B) (svc : PagedService)
    (hpage : ∀ o, o < svc.totalCount → (svc.page o).length = min B (svc.totalCount - o)) :
    ∀ (fuel off : Nat), svc.totalCount - off ≤ fuel →
      (fetchLoop svc fuel off).1.length = svc.totalCount - off ∧
      (fetchLoop svc fuel off).2 = (svc.totalCount - off + B - 1) / B := by
  intro fuel
  induction fuel with
  | zero =>
    intro off h0
    show (([], 0) : List RawRecord × Nat).1.length = _ ∧ (([], 0) : List RawRecord × Nat).2 = _
    have hz : svc.totalCount - off = 0 := by omega
    rw [hz]
    refine ⟨rfl, ?_⟩
    show 0 = (0 + B - 1) / B
    rw [Nat.div_eq_of_lt (by omega)]
  | succ n ih =>
    intro off h0
    by_cases hoff : off < svc.totalCount
    · have hlen := hpage off hoff
      have hne : ¬ (svc.page off).length = 0 := by
        rw [hlen]; omega
      rw [fetchLoop, if_pos hoff, if_neg hne]
      have hstep : svc.totalCount - (off + (svc.page off).length) ≤ n := by
        rw [hlen]; omega
      obtain ⟨ih1, ih2⟩ := ih (off + (svc.page off).length) hstep
      constructor
      · rw [List.length_append, ih1, hlen]
        omega
      · rw [ih2]
        by_cases hsmall : svc.totalCount - off ≤ B
        · have hz : svc.totalCount - (off + (svc.page off).length) = 0 := by
            rw [hlen]; omega
          rw [hz]
          rw [Nat.div_eq_of_lt (by omega)]
          have h1 : 1 ≤ svc.totalCount - off := by omega
          have hone : (svc.totalCount - off + B - 1) / B = 1 :=
            Nat.div_eq_of_lt_le (by omega) (by omega)
          omega
        · have hrw1 : svc.totalCount - (off + (svc.page off).length) + B - 1
              = svc.totalCount - off - 1 := by
            rw [hlen]; omega
          have hrw2 : svc.totalCount - off + B - 1 = (svc.totalCount - off - 1) + B := by
            omega
          rw [hrw1, hrw2, Nat.add_div_right _ hB]
    · have hz : svc.totalCount - off = 0 := by omega
      rw [fetchLoop, if_neg hoff, hz]
      refine ⟨rfl, ?_⟩
      show 0 = (0 + B - 1) / B
      rw [Nat.div_eq_of_lt (by omega)]

theorem fetchPages_spec (B : Nat) (hB : 0 < B) (svc : PagedService)
    (hpage : ∀ o, o < svc.totalCount → (svc.page o).length = min B (svc.totalCount - o))
    (off : Nat) :
    (fetchPages svc off).1.length = svc.totalCount - off ∧
    (fetchPages svc off).2 = (svc.totalCount - off + B - 1) / B :=
  fetchLoop_spec B hB svc hpage (svc.totalCount - off) off (Nat.le_refl _)

/-- Modelled from the spec: the string form of a raw field value used when
no Field Parser is configured (identity passthrough, §3 "Field Parser"). -/
def rawValueString : RawValue → String
  | .str s => s
  | .strs parts => String.intercalate " " parts
  | .obj _ => ""

/-- Modelled from the spec: one cell of a Tabular Citation Dataset (§4.5) —
a field missing from the raw record yields an explicit empty value; an
absent Field Parser means passthrough. -/
def applyFieldParse (p : Option (RawValue → String)) : Option RawValue → String
  | none => ""
  | some v =>
    match p with
    | none => rawValueString v
    | some f => f v

/-- Modelled from the spec: the Tabular Citation Dataset transformer
(`get_CitationsDataset`, §4.5) — given an ordered field-name list and a
parallel list of optional Field Parsers, one row per record with one
column per requested field. -/
def get_CitationsDataset (c : ResultCollection) (fieldList : List String)
    (fieldParsersList : List (Option (RawValue → String))) : List (List String) :=
  c.records.map (fun r =>
    (fieldList.zip fieldParsersList).map (fun fp => applyFieldParse fp.2 (r.getField fp.1)))

/-- Modelled from the spec: the title Field Parser of the Field Parser
Library (`paperfetcher.parsers`, title parsing) — a pure function mapping
the raw nested-title fragment (a list of title strings, inline markup
retained) to one normalized string. -/
def crossrefTitleParse : RawValue → String
  | .strs parts => String.intercalate " " parts
  | .str t => t
  | .obj _ => ""

/-- The seed set of the notebook's snowball-search scenarios. -/
def scenarioSeeds : List String :=
  ["10.1021/acs.jpcb.1c02191", "10.1073/pnas.2018234118"]

/-- The handsearch scenario Query Specification: JPCB (ISSN 1520-5207),
2021-01-01 through 2021-06-01, no keywords. -/
def jpcbQuery : HandsearchQuery :=
  ⟨"1520-5207", "2021-01-01", "2021-06-01", []⟩

theorem missingCount_eq_zero (l : List RawRecord) (h : ∀ r ∈ l, r.ident.isSome) :
    missingCount l = 0 := by
  unfold missingCount
  rw [List.filter_eq_nil_iff.mpr]
  · rfl
  · intro r hr
    have := h r hr
    simp [Option.isNone_iff_eq_none]
    intro hnone
    rw [hnone] at this
    cases this

theorem skippedRefs_length (svc : CitationService) (seeds : List String) :
    (skippedRefs svc seeds).length
      = ((seeds.flatMap svc.references).filter (fun r => r.doi.isNone)).length := by
  induction seeds with
  | nil => rfl
  | cons s seeds ih =>
    simp only [skippedRefs, List.flatMap_cons, List.length_append, List.filter_append,
      List.length_map]
    simp only [skippedRefs] at ih
    rw [ih]

theorem filterMap_ident_length (l : List RawRecord) (h : ∀ r ∈ l, r.ident.isSome) :
    (l.filterMap RawRecord.ident).length = l.length := by
  induction l with
  | nil => rfl
  | cons r rs ih =>
    obtain ⟨d, hd⟩ := Option.isSome_iff_exists.mp (h r (List.mem_cons_self r rs))
    rw [List.filterMap_cons]
    rw [hd]
    simp only [List.length_cons]
    rw [ih (fun x hx => h x (List.mem_cons_of_mem r hx))]

/-- The dedup invariant of a completed Result Collection relative to the
record sequence its run appended: no two records share a canonical
Identifier; `size` equals the number of distinct canonical Identifiers
appended plus one per identifier-less appended record; and identifier-less
records are all retained (never deduplicated against each other). -/
def collectionInvariant (c : ResultCollection) (appended : List RawRecord) : Prop :=
  c.keys.Nodup ∧
  c.size = (keyList appended).toFinset.card + missingCount appended ∧
  (c.records.filter (fun r => r.ident.isNone)).length = missingCount appended

theorem fromRecords_invariant (rs : List RawRecord) :
    collectionInvariant (ResultCollection.fromRecords rs) rs := by
  refine ⟨fromRecords_keys_nodup rs, fromRecords_size rs, ?_⟩
  have := appendAll_missing rs ResultCollection.empty
  simpa [ResultCollection.empty] using this

/-- C1: for every search orchestrator run (handsearch, backward snowball,
forward snowball), once the run completes the Result Collection contains no
two records with the same canonical Identifier, and its `size()` equals the
number of distinct canonical Identifiers appended, where each record
lacking an Identifier counts once and is never deduplicated against
another identifier-less record. -/
theorem orchestrator_dedup_invariant (svcP : PagedService) (svcC : CitationService)
    (fs : ForwardSearch) (seeds : List String) :
    collectionInvariant (handsearch svcP).collection (fetchPages svcP 0).1 ∧
    collectionInvariant (backwardSnowball svcC seeds).collection
      (backwardAppended svcC seeds) ∧
    collectionInvariant fs.run.collection (forwardAppended fs) := by
  refine ⟨fromRecords_invariant _, ?_, ?_⟩
  · rw [backwardSnowball_eq]
    exact fromRecords_invariant _
  · rw [forward_run_eq]
    exact fromRecords_invariant _

/-- C6: during backward snowball, every reference object lacking an
Identifier is recorded as a skipped-reference warning, is excluded from the
Result Collection (which holds only records resolved from DOI-bearing
references), and never aborts the run: the full warning list over all
seeds is accumulated and exposed to the caller in the `SearchRun` result
alongside the final collection. -/
theorem skipped_reference_policy (svc : CitationService) (seeds : List String) :
    (backwardSnowball svc seeds).warnings = skippedRefs svc seeds ∧
    (∀ w ∈ (backwardSnowball svc seeds).warnings, w.refObj.doi = none) ∧
    (backwardSnowball svc seeds).collection
      = ResultCollection.fromRecords (backwardAppended svc seeds) ∧
    (∀ r ∈ (backwardSnowball svc seeds).collection.records,
      ∃ d ∈ backwardDOIs svc seeds, r = svc.resolve d) := by
  have heq := backwardSnowball_eq svc seeds
  refine ⟨by rw [heq], ?_, by rw [heq], ?_⟩
  · intro w hw
    rw [heq] at hw
    simp only [skippedRefs, List.mem_flatMap, List.mem_map, List.mem_filter] at hw
    obtain ⟨s, _, r, ⟨_, hrnone⟩, hweq⟩ := hw
    rw [← hweq]
    simpa [Option.isNone_iff_eq_none] using hrnone
  · intro r hr
    rw [heq] at hr
    have := mem_appendAll_cases (backwardAppended svc seeds) ResultCollection.empty r hr
    rcases this with h | h
    · cases h
    · simp only [backwardAppended, List.mem_map] at h
      obtain ⟨d, hd, hres⟩ := h
      exact ⟨d, hd, hres.symm⟩

/-- C7: constructing a forward-snowball orchestrator over a service adapter
that does not support citing-identifier extraction (such as the Crossref
adapter) fails with `CapabilityError` at construction time; the
construction depends only on the adapter's capability flag, never invoking
its fetch components, so no network call is made and the failure cannot
occur mid-run or come back as silently empty results. -/
theorem forward_capability_error (svc : CitationService) (seeds : List String)
    (hno : svc.citing = none) :
    mkForwardSearch svc seeds
        = Except.error (SnowballError.capabilityError "extract_citing_identifiers") ∧
    (∀ svc2 : CitationService, svc2.citing = none →
      mkForwardSearch svc2 seeds = mkForwardSearch svc seeds) := by
  constructor
  · simp [mkForwardSearch, hno]
  · intro svc2 h2
    simp [mkForwardSearch, hno, h2]

/-- A concrete Crossref-like adapter used to instantiate the
`CapabilityError` theorem: backward extraction present, forward absent. -/
def noForwardAdapter : CitationService :=
  crossrefAdapter (fun _ => []) (fun d => ⟨some d, []⟩)

/-- Witness for C7: the Crossref-like adapter, which lacks forward support,
makes forward-orchestrator construction fail with `CapabilityError`. -/
theorem forward_capability_error_witness :
    noForwardAdapter.citing = none ∧
    mkForwardSearch noForwardAdapter ["10.1021/acs.jpcb.1c02191"]
      = Except.error (SnowballError.capabilityError "extract_citing_identifiers") :=
  ⟨rfl, (forward_capability_error noForwardAdapter ["10.1021/acs.jpcb.1c02191"] rfl).1⟩

/-- C8: for every handsearch whose service reports total count `T` and
serves batches of the configured size `B` (the final batch possibly
shorter), the Fetch Engine issues exactly `⌈T / B⌉` batch requests and
accumulates exactly `T` records into one ordered sequence, stopping when
the accumulated count reaches `T`. -/
theorem fetch_engine_batches (svc : PagedService) (B : Nat) (hB : 0 < B)
    (hpage : ∀ off, off < svc.totalCount →
      (svc.page off).length = min B (svc.totalCount - off)) :
    (fetchPages svc 0).2 = (svc.totalCount + B - 1) / B ∧
    (fetchPages svc 0).1.length = svc.totalCount := by
  obtain ⟨h1, h2⟩ := fetchPages_spec B hB svc hpage 0
  rw [Nat.sub_zero] at h1 h2
  exact ⟨h2, h1⟩

/-- A concrete paged service for the handsearch scenario: 568 works served
in batches of 20. -/
def jpcbPagedService : PagedService :=
  ⟨568, fun off => List.replicate (min 20 (568 - off)) ⟨none, []⟩⟩

/-- Witness for C8: with a reported total of 568 works and batch size 20,
the Fetch Engine issues 29 batch requests and accumulates 568 records —
the counts shown in the handsearching notebook. -/
theorem fetch_engine_batches_witness :
    0 < 20 ∧
    (∀ off, off < jpcbPagedService.totalCount →
      (jpcbPagedService.page off).length = min 20 (jpcbPagedService.totalCount - off)) ∧
    (fetchPages jpcbPagedService 0).2 = 29 ∧
    (fetchPages jpcbPagedService 0).1.length = 568 := by
  have h := fetch_engine_batches jpcbPagedService 20 (by decide)
    (fun off hoff => by simp [jpcbPagedService])
  refine ⟨by decide, fun off hoff => by simp [jpcbPagedService], ?_, h.2⟩
  rw [h.1]
  show (568 + 20 - 1) / 20 = 29
  norm_num

/-- C3: a handsearch over the scenario Query Specification (ISSN 1520-5207,
2021-01-01 to 2021-06-01) against a service that reports a total count of
568, delivers all 568 records, and serves records with pairwise distinct
canonical Identifiers, produces a Result Collection whose size equals the
service-reported total count 568 and in which every record's Identifier is
unique. -/
theorem handsearch_scenario (service : HandsearchQuery → PagedService)
    (htotal : (service jpcbQuery).totalCount = 568)
    (hfetch : (fetchPages (service jpcbQuery) 0).1.length
        = (service jpcbQuery).totalCount)
    (hkeys : (keyList (fetchPages (service jpcbQuery) 0).1).Nodup) :
    (handsearch (service jpcbQuery)).collection.size = 568 ∧
    (handsearch (service jpcbQuery)).collection.keys.Nodup := by
  constructor
  · show (ResultCollection.fromRecords (fetchPages (service jpcbQuery) 0).1).size = 568
    rw [fromRecords_size_of_nodup _ hkeys, hfetch, htotal]
  · exact fromRecords_keys_nodup _

/-- A concrete service family for the handsearch scenario witness: any
query is answered with 568 records served in one page. -/
def jpcbWitnessService : HandsearchQuery → PagedService :=
  fun _ => ⟨568, fun off => List.replicate (568 - off) ⟨none, []⟩⟩

set_option maxRecDepth 40000 in
/-- Witness for C3 at the scenario query, total count 568. -/
theorem handsearch_scenario_witness :
    (jpcbWitnessService jpcbQuery).totalCount = 568 ∧
    (fetchPages (jpcbWitnessService jpcbQuery) 0).1.length
        = (jpcbWitnessService jpcbQuery).totalCount ∧
    (keyList (fetchPages (jpcbWitnessService jpcbQuery) 0).1).Nodup ∧
    (handsearch (jpcbWitnessService jpcbQuery)).collection.size = 568 :=
  ⟨rfl, by decide, by decide,
   (handsearch_scenario jpcbWitnessService rfl (by decide) (by decide)).1⟩

/-- C4: the Identifier (DOI) Dataset built from a Result Collection of N
records each having an Identifier contains exactly N entries, each entry
equal to the Identifier of one record of the collection, and no two
entries are equal. -/
theorem doi_dataset_roundtrip (rs : List RawRecord)
    (hsome : ∀ r ∈ (ResultCollection.fromRecords rs).records, r.ident.isSome) :
    (get_DOIDataset (ResultCollection.fromRecords rs)).length
        = (ResultCollection.fromRecords rs).size ∧
    (∀ d ∈ get_DOIDataset (ResultCollection.fromRecords rs),
      ∃ r ∈ (ResultCollection.fromRecords rs).records, r.ident = some d) ∧
    (get_DOIDataset (ResultCollection.fromRecords rs)).Nodup := by
  refine ⟨filterMap_ident_length _ hsome, ?_, ?_⟩
  · intro d hd
    exact List.mem_filterMap.mp hd
  · have hkeys := fromRecords_keys_nodup rs
    have hmap : (ResultCollection.fromRecords rs).keys
        = (get_DOIDataset (ResultCollection.fromRecords rs)).map canonicalize := by
      show _ = ((ResultCollection.fromRecords rs).records.filterMap RawRecord.ident).map
        canonicalize
      rw [List.map_filterMap]
      rfl
    rw [hmap] at hkeys
    exact hkeys.of_map canonicalize

/-- Two identifier-bearing records for the round-trip witness. -/
def doiRoundtripRecords : List RawRecord :=
  [⟨some "10.1073/pnas.2023867118", []⟩, ⟨some "10.1073/pnas.2018234118", []⟩]

/-- Witness for C4 on a two-record collection. -/
theorem doi_dataset_roundtrip_witness :
    (∀ r ∈ (ResultCollection.fromRecords doiRoundtripRecords).records, r.ident.isSome) ∧
    (get_DOIDataset (ResultCollection.fromRecords doiRoundtripRecords)).length
        = (ResultCollection.fromRecords doiRoundtripRecords).size ∧
    (get_DOIDataset (ResultCollection.fromRecords doiRoundtripRecords)).Nodup :=
  ⟨by decide, (doi_dataset_roundtrip doiRoundtripRecords (by decide)).1,
   (doi_dataset_roundtrip doiRoundtripRecords (by decide)).2.2⟩

/-- C2: a backward snowball over the notebook's two seeds, against a
service whose references across both seeds carry 140 distinct canonical
Identifiers (each resolving to an identifier-bearing record) and exactly
one identifier-less reference object, merges everything into a single
deduplicated Result Collection of 140 entries and records exactly one
skipped-reference warning; a duplicate Identifier is discarded outright
(the first occurrence wins; nothing is merged field-by-field). -/
theorem backward_scenario (svc : CitationService)
    (hsome : ∀ d ∈ backwardDOIs svc scenarioSeeds, ((svc.resolve d).ident).isSome)
    (hN : (keyList (backwardAppended svc scenarioSeeds)).toFinset.card = 140)
    (hskip : ((scenarioSeeds.flatMap svc.references).filter
        (fun r => r.doi.isNone)).length = 1) :
    (backwardSnowball svc scenarioSeeds).collection.size = 140 ∧
    (backwardSnowball svc scenarioSeeds).warnings.length = 1 ∧
    (∀ (c : ResultCollection) (r : RawRecord) (d : String),
      r.ident = some d → canonicalize d ∈ c.keys → c.append r = c) := by
  have heq := backwardSnowball_eq svc scenarioSeeds
  refine ⟨?_, ?_, fun c r d h hm => append_of_mem c r d h hm⟩
  · rw [heq]
    show (ResultCollection.fromRecords (backwardAppended svc scenarioSeeds)).size = 140
    rw [fromRecords_size]
    have hmiss : missingCount (backwardAppended svc scenarioSeeds) = 0 := by
      apply missingCount_eq_zero
      intro r hr
      simp only [backwardAppended, List.mem_map] at hr
      obtain ⟨d, hd, rfl⟩ := hr
      exact hsome d hd
    rw [hN, hmiss]
  · rw [heq]
    show (skippedRefs svc scenarioSeeds).length = 1
    rw [skippedRefs_length, hskip]

/-- A concrete citation service for the backward-snowball scenario witness:
the first seed contributes 140 references with distinct DOIs, the second
contributes one identifier-less reference object. -/
def backwardScenarioService : CitationService :=
  ⟨fun s =>
      if s = "10.1021/acs.jpcb.1c02191" then
        (List.range 140).map (fun n => ⟨some (Nat.repr n), ""⟩)
      else if s = "10.1073/pnas.2018234118" then
        [⟨none, "U. M. Moll, O. Petrenko, The MDM2-p53 interaction."⟩]
      else [],
   fun d => ⟨some d, []⟩,
   none⟩

set_option maxRecDepth 40000 in
/-- Witness for C2: 140 distinct references and one identifier-less one
give a 140-entry collection and one warning. -/
theorem backward_scenario_witness :
    (∀ d ∈ backwardDOIs backwardScenarioService scenarioSeeds,
      ((backwardScenarioService.resolve d).ident).isSome) ∧
    (keyList (backwardAppended backwardScenarioService scenarioSeeds)).toFinset.card
        = 140 ∧
    ((scenarioSeeds.flatMap backwardScenarioService.references).filter
        (fun r => r.doi.isNone)).length = 1 ∧
    (backwardSnowball backwardScenarioService scenarioSeeds).collection.size = 140 ∧
    (backwardSnowball backwardScenarioService scenarioSeeds).warnings.length = 1 :=
  ⟨by decide, by decide, by decide,
   (backward_scenario backwardScenarioService (by decide) (by decide) (by decide)).1,
   (backward_scenario backwardScenarioService (by decide) (by decide) (by decide)).2.1⟩

theorem fromRecords_mem_iff (rs : List RawRecord)
    (hcoh : ∀ a ∈ rs, ∀ b ∈ rs, ∀ k, a.key = some k → b.key = some k → a = b)
    (r : RawRecord) :
    r ∈ (ResultCollection.fromRecords rs).records ↔ r ∈ rs := by
  constructor
  · intro h
    rcases mem_appendAll_cases rs ResultCollection.empty r h with h | h
    · cases h
    · exact h
  · intro h
    refine mem_appendAll_of_mem rs ResultCollection.empty ?_ r h
    intro a ha b hb k hak hbk
    exact hcoh a (by simpa [ResultCollection.empty] using ha)
      b (by simpa [ResultCollection.empty] using hb) k hak hbk

theorem fromRecords_records_nodup (rs : List RawRecord)
    (hsome : ∀ r ∈ rs, r.ident.isSome) :
    (ResultCollection.fromRecords rs).records.Nodup := by
  apply nodup_of_keys_nodup
  · intro r hr
    rcases mem_appendAll_cases rs ResultCollection.empty r hr with h | h
    · cases h
    · exact hsome r h
  · exact fromRecords_keys_nodup rs

/-- C5: backward snowball over a seed set and over any permutation of it
yields Result Collections with the same contents (the merged record lists
are permutations of each other), for every service whose resolver is
keyed by the canonical Identifier (records with equal canonical
Identifiers resolve identically, and every resolved record carries an
Identifier). -/
theorem backward_permutation_invariant (svc : CitationService)
    (seedsA seedsB : List String)
    (hsome : ∀ d, ((svc.resolve d).ident).isSome)
    (hcoh : ∀ d e, (svc.resolve d).key = (svc.resolve e).key →
      svc.resolve d = svc.resolve e)
    (hperm : seedsA.Perm seedsB) :
    ((backwardSnowball svc seedsA).collection.records).Perm
      ((backwardSnowball svc seedsB).collection.records) := by
  have hpermD : (backwardDOIs svc seedsA).Perm (backwardDOIs svc seedsB) :=
    hperm.flatMap_right _
  have hpermR : (backwardAppended svc seedsA).Perm (backwardAppended svc seedsB) :=
    hpermD.map _
  have hsome2 : ∀ (seeds : List String), ∀ r ∈ backwardAppended svc seeds,
      r.ident.isSome := by
    intro seeds r hr
    simp only [backwardAppended, List.mem_map] at hr
    obtain ⟨d, _, rfl⟩ := hr
    exact hsome d
  have hcoh2 : ∀ (seeds : List String), ∀ a ∈ backwardAppended svc seeds,
      ∀ b ∈ backwardAppended svc seeds, ∀ k, a.key = some k → b.key = some k → a = b := by
    intro seeds a ha b hb k hak hbk
    simp only [backwardAppended, List.mem_map] at ha hb
    obtain ⟨d, _, rfl⟩ := ha
    obtain ⟨e, _, rfl⟩ := hb
    exact hcoh d e (hak.trans hbk.symm)
  rw [backwardSnowball_eq svc seedsA, backwardSnowball_eq svc seedsB]
  show ((ResultCollection.fromRecords (backwardAppended svc seedsA)).records).Perm
    ((ResultCollection.fromRecords (backwardAppended svc seedsB)).records)
  apply List.perm_of_nodup_nodup_toFinset_eq
  · exact fromRecords_records_nodup _ (hsome2 seedsA)
  · exact fromRecords_records_nodup _ (hsome2 seedsB)
  · ext r
    simp only [List.mem_toFinset]
    rw [fromRecords_mem_iff _ (hcoh2 seedsA), fromRecords_mem_iff _ (hcoh2 seedsB)]
    exact ⟨fun h => hpermR.mem_iff.mp h, fun h => hpermR.mem_iff.mpr h⟩

/-- A service with a constant, Identifier-keyed resolver, for the
permutation-invariance witness. -/
def permScenarioService : CitationService :=
  ⟨fun _ => [⟨some "10.1021/ar2000869", ""⟩],
   fun _ => ⟨some "10.1021/ar2000869", []⟩,
   none⟩

/-- Witness for C5 on the scenario seeds and their reversal. -/
theorem backward_permutation_invariant_witness :
    (∀ d, ((permScenarioService.resolve d).ident).isSome) ∧
    scenarioSeeds.Perm scenarioSeeds.reverse ∧
    ((backwardSnowball permScenarioService scenarioSeeds).collection.records).Perm
      ((backwardSnowball permScenarioService scenarioSeeds.reverse).collection.records) :=
  ⟨fun _ => rfl, by decide,
   backward_permutation_invariant permScenarioService scenarioSeeds scenarioSeeds.reverse
     (fun _ => rfl) (fun _ _ _ => rfl) (by decide)⟩

/-- C9: each Field Parser is a pure function from a raw metadata fragment
to a normalized string, and the Tabular Citation Dataset cell at row `i`,
column `j` is exactly the configured parser applied to record `i`'s raw
value for field `j`; in particular the title parser maps the nested title
fragment to its normalized string form (inline markup retained). -/
theorem citations_dataset_cells (c : ResultCollection) (fl : List String)
    (pl : List (Option (RawValue → String))) (i j : Nat)
    (hi : i < c.records.length) (hj1 : j < fl.length) (hj2 : j < pl.length)
    (hrow : i < (get_CitationsDataset c fl pl).length)
    (hcell : j < ((get_CitationsDataset c fl pl).get ⟨i, hrow⟩).length) :
    ((get_CitationsDataset c fl pl).get ⟨i, hrow⟩).get ⟨j, hcell⟩
      = applyFieldParse (pl.get ⟨j, hj2⟩)
          ((c.records.get ⟨i, hi⟩).getField (fl.get ⟨j, hj1⟩)) ∧
    (∀ ts, crossrefTitleParse (RawValue.strs ts) = String.intercalate " " ts) := by
  constructor
  · simp only [get_CitationsDataset, List.get_eq_getElem, List.getElem_map,
      List.getElem_zip]
  · intro ts
    rfl

/-- A one-record collection whose title field carries the notebook's
markup-bearing title fragment. -/
def titleScenarioCollection : ResultCollection :=
  ⟨[⟨some "10.1073/pnas.2008122117",
     [("title", RawValue.strs
        ["Comparative roles of charge, <i>π</i>, and hydrophobic interactions"])]⟩]⟩

/-- Witness for C9 at row 0, column 0 with the title parser. -/
theorem citations_dataset_cells_witness :
    0 < titleScenarioCollection.records.length ∧
    (((get_CitationsDataset titleScenarioCollection ["title"]
          [some crossrefTitleParse]).get ⟨0, by decide⟩).get ⟨0, by decide⟩
        = applyFieldParse ([some crossrefTitleParse].get ⟨0, by decide⟩)
            ((titleScenarioCollection.records.get ⟨0, by decide⟩).getField
              (["title"].get ⟨0, by decide⟩)) ∧
      (∀ ts, crossrefTitleParse (RawValue.strs ts) = String.intercalate " " ts)) :=
  ⟨by decide,
   citations_dataset_cells titleScenarioCollection ["title"] [some crossrefTitleParse]
     0 0 (by decide) (by decide) (by decide) (by decide) (by decide)⟩

/-- The forward-citation extraction of the notebook's COCI scenario: the
second seed is cited by the first seed (among others), so the first seed's
own Identifier appears among the citing identifiers. -/
def cociCitingFn : String → List String :=
  fun s =>
    if s = "10.1021/acs.jpcb.1c02191" then
      ["10.1002/pol.20210526", "10.1016/j.bpj.2021.07.016"]
    else if s = "10.1073/pnas.2018234118" then
      ["10.1021/acs.jpcb.1c02191", "10.1038/s41557-021-00864-2"]
    else []

/-- The COCI-like adapter of the forward scenario. -/
def cociService : CitationService :=
  ⟨fun _ => [], fun d => ⟨some d, []⟩, some cociCitingFn⟩

/-- The successfully constructed forward search of the scenario. -/
def cociForwardSearch : ForwardSearch :=
  ⟨cociCitingFn, fun d => ⟨some d, []⟩, scenarioSeeds⟩

/-- C10: seeds are not excluded from forward-citation results — for the
notebook's seed set, where one seed cites the other, the forward-snowball
Result Collection contains the record of a seed Identifier itself. -/
theorem forward_includes_seed :
    mkForwardSearch cociService scenarioSeeds = Except.ok cociForwardSearch ∧
    "10.1021/acs.jpcb.1c02191" ∈ scenarioSeeds ∧
    (⟨some "10.1021/acs.jpcb.1c02191", []⟩ : RawRecord)
      ∈ cociForwardSearch.run.collection.records := by
  refine ⟨rfl, by decide, by decide⟩

end Paperfetcher
